import Mathlib

/-!
Verification of the Git Extended workflow node's command-construction and
execution engine (`src/nodes/GitExtended/GitExtended.node.ts`).

The TypeScript source is shallowly embedded below.  Pure string assembly is
translated directly; the effects a builder observes (output of the internal
`git status` / `git diff` inspection commands, the generated temp-file name,
the behavior of the launched child process, the outcome of deleting a temp
file) are passed in explicitly as a `World` / `ItemEnv` value.  The WHATWG
URL behavior that the builders use through Node's `new URL` / `url.toString`
is modelled by an executable parser/serializer over character lists covering
the hierarchical `scheme://userinfo@host/rest` shape relevant to git remotes.
-/

namespace GitExtended

/-! ## Generic string helpers -/

/-- Does `p` occur at the head of `s`? -/
def listHasPre : List Char → List Char → Bool
  | [], _ => true
  | _ :: _, [] => false
  | p :: ps, c :: cs => p = c && listHasPre ps cs

/-- Does `p` occur anywhere inside `s`? -/
def listHasSub (p : List Char) : List Char → Bool
  | [] => listHasPre p []
  | c :: cs => listHasPre p (c :: cs) || listHasSub p cs

/-- Substring test on strings. -/
def hasSubstr (p s : String) : Bool := listHasSub p.data s.data

/-- Whitespace set used by JavaScript `String.prototype.trim` on the ASCII
range that git output produces. -/
def isWsp (c : Char) : Bool := c = ' ' || c = '\n' || c = '\t' || c = '\r'

/-- Model of JavaScript `s.trim()`: strip leading and trailing whitespace. -/
def trimChars (s : List Char) : List Char :=
  ((s.dropWhile isWsp).reverse.dropWhile isWsp).reverse

/-- String wrapper of `trimChars`. -/
def trimStr (s : String) : String := String.mk (trimChars s.data)

/-- Mirrors `value.replace(/"/g, String.fromCharCode(92, 34))`: each embedded
double quote becomes backslash-quote; all other characters pass through. -/
def escapeQuotes (s : String) : String :=
  String.mk (s.data.foldr (fun c acc => if c = '"' then '\\' :: '"' :: acc else c :: acc) [])

/-- Mirrors `commands.join(" && ")` on an array of sub-commands. -/
def joinAnd : List String → String
  | [] => ""
  | [c] => c
  | c :: cs => c ++ " && " ++ joinAnd cs

/-! ## Model of the WHATWG URL behavior used by the builders

Node's `new URL(remote)` throws on a string with no `scheme://` part (local
paths, scp-like remotes); on success, assigning `url.username` /
`url.password` percent-encodes the reserved delimiters and `url.toString()`
re-serializes with the overwritten user-info.  The model below covers the
hierarchical URLs git remotes use. -/

/-- Reserved delimiters that the user-info setters percent-encode. -/
def needsEscape (c : Char) : Bool :=
  c = '/' || c = ':' || c = '@' || c = '?' || c = '#'

/-- Percent-encoding of a single user-info character, per the WHATWG
user-info percent-encode set restricted to the URL delimiters. -/
def encodeChar (c : Char) : List Char :=
  if c = '/' then ['%', '2', 'F']
  else if c = ':' then ['%', '3', 'A']
  else if c = '@' then ['%', '4', '0']
  else if c = '?' then ['%', '3', 'F']
  else if c = '#' then ['%', '2', '3']
  else [c]

/-- Percent-encoding of a whole username or password. -/
def encodeUserinfo (s : List Char) : List Char := s.flatMap encodeChar

/-- Split a string at the first occurrence of the literal `"://"`; `none`
when there is no such occurrence (the URL fails to parse). -/
def splitProto : List Char → Option (List Char × List Char)
  | [] => none
  | c :: cs =>
    if c = ':' ∧ cs.take 2 = ['/', '/'] then some ([], cs.drop 2)
    else (splitProto cs).map (fun p => (c :: p.1, p.2))

/-- Characters that terminate the authority component. -/
def isAuthEnd (c : Char) : Bool := c = '/' || c = '?' || c = '#'

/-- Split what follows `"://"` into the authority and the rest (path, query,
fragment — kept verbatim, starting with its delimiter). -/
def splitAuthority : List Char → List Char × List Char
  | [] => ([], [])
  | c :: cs =>
    if isAuthEnd c then ([], c :: cs)
    else
      let p := splitAuthority cs
      (c :: p.1, p.2)

/-- Split a list at the first occurrence of `sep`; `none` if absent. -/
def splitAtFirst (sep : Char) : List Char → Option (List Char × List Char)
  | [] => none
  | c :: cs =>
    if c = sep then some ([], cs)
    else (splitAtFirst sep cs).map (fun p => (c :: p.1, p.2))

/-- Structured URL: scheme, user-info, host (including any port), and the
verbatim remainder. -/
structure Url where
  scheme : List Char
  username : List Char
  password : List Char
  host : List Char
  rest : List Char
deriving Repr, DecidableEq

/-- Parse a URL string.  The user-info is the part of the authority before
its last `'@'` (as in the WHATWG parser); the username is the user-info up
to its first `':'`. -/
def parseUrlChars (s : List Char) : Option Url :=
  match splitProto s with
  | none => none
  | some st =>
    match splitAtFirst '@' (splitAuthority st.2).1.reverse with
    | none => some ⟨st.1, [], [], (splitAuthority st.2).1, (splitAuthority st.2).2⟩
    | some hu =>
      match splitAtFirst ':' hu.2.reverse with
      | none => some ⟨st.1, hu.2.reverse, [], hu.1.reverse, (splitAuthority st.2).2⟩
      | some up => some ⟨st.1, up.1, up.2, hu.1.reverse, (splitAuthority st.2).2⟩

/-- Serialized user-info: `username[:password]@`, omitted when both parts
are empty. -/
def userinfoChars (u : Url) : List Char :=
  if u.username = [] ∧ u.password = [] then []
  else u.username ++ (if u.password = [] then [] else ':' :: u.password) ++ ['@']

/-- Re-serialize a URL. -/
def serializeUrlChars (u : Url) : List Char :=
  u.scheme ++ [':', '/', '/'] ++ userinfoChars u ++ u.host ++ u.rest

/-- Mirrors `url.username = user; url.password = pass`: the user-info
sub-component is overwritten with the percent-encoded new pair. -/
def setUserinfo (u : Url) (user pass : String) : Url :=
  { u with username := encodeUserinfo user.data, password := encodeUserinfo pass.data }

/-- The URL Authenticator as the push/pull builders use it: parse the
remote; on failure return it unchanged; on success overwrite the user-info
and re-serialize. -/
def authenticateUrl (url user pass : String) : String :=
  match parseUrlChars url.data with
  | none => url
  | some u => String.mk (serializeUrlChars (setUserinfo u user pass))

/-! ## Data model of the node -/

/-- A username/password pair. -/
structure Creds where
  username : String
  password : String
deriving Repr, DecidableEq

/-- The parameter bag one work item carries (defaults are the property
defaults declared in the node description). -/
structure Params where
  repoPath : String := "."
  authentication : String := "none"
  storedCreds : Creds := ⟨"", ""⟩
  customUsername : String := ""
  customPassword : String := ""
  repoUrl : String := ""
  targetPath : String := "."
  files : String := "."
  commitMessage : String := ""
  remote : String := "origin"
  branch : String := ""
  skipLfsSmudge : Bool := false
  forcePush : Bool := false
  pushLfsObjects : Bool := false
  skipLfsPush : Bool := false
  branchName : String := ""
  currentName : String := ""
  newName : String := ""
  target : String := ""
  create : Bool := false
  upstream : String := ""
  commit : String := ""
  tagName : String := ""
  tagCommit : String := ""
  patchInput : String := "text"
  patchText : String := ""
  patchFile : String := ""
  binary : Bool := false
  userName : String := ""
  userEmail : String := ""
  skipStdout : Bool := false
deriving Repr, DecidableEq

/-- Effects a builder observes while constructing its command: the outputs
of the internal inspection commands the commit builder runs, and the fresh
temp-file name the apply-patch builder generates. -/
structure World where
  statusOut : String := ""
  diffOut : String := ""
  tempName : String := ""
deriving Repr, DecidableEq

/-- What a Command Builder returns: the shell command plus an optional
temp-file path needing deletion after execution. -/
structure CommandResult where
  command : String
  tempFile : Option String := none
deriving Repr, DecidableEq

/-- The `Operation` enum of the source. -/
inductive Operation
  | add | applyPatch | createBranch | deleteBranch | branches | checkout
  | clone | commit | commits | renameBranch | init | log | merge
  | cherryPick | fetch | rebase | reset | revert | stash | tag
  | pull | push | lfsPush | status | switch | configUser
deriving Repr, DecidableEq

/-- `commandMap` lookup: which operation string has a registered builder. -/
def parseOp (s : String) : Option Operation :=
  if s = "add" then some .add
  else if s = "applyPatch" then some .applyPatch
  else if s = "createBranch" then some .createBranch
  else if s = "deleteBranch" then some .deleteBranch
  else if s = "branches" then some .branches
  else if s = "checkout" then some .checkout
  else if s = "clone" then some .clone
  else if s = "commit" then some .commit
  else if s = "commits" then some .commits
  else if s = "renameBranch" then some .renameBranch
  else if s = "init" then some .init
  else if s = "log" then some .log
  else if s = "merge" then some .merge
  else if s = "cherryPick" then some .cherryPick
  else if s = "fetch" then some .fetch
  else if s = "rebase" then some .rebase
  else if s = "reset" then some .reset
  else if s = "revert" then some .revert
  else if s = "stash" then some .stash
  else if s = "tag" then some .tag
  else if s = "pull" then some .pull
  else if s = "push" then some .push
  else if s = "lfsPush" then some .lfsPush
  else if s = "status" then some .status
  else if s = "switch" then some .switch
  else if s = "configUser" then some .configUser
  else none

/-- Own property names of `Object.prototype`.  `commandMap` is a plain
object literal, so the `commandMap[operation]` lookup walks the prototype
chain and finds these inherited members — truthy values that are not
Command Builders — whenever the tag is not a registered key. -/
def objectProtoKeys : List String :=
  ["constructor", "hasOwnProperty", "isPrototypeOf", "propertyIsEnumerable",
   "toLocaleString", "toString", "valueOf", "__defineGetter__",
   "__defineSetter__", "__lookupGetter__", "__lookupSetter__", "__proto__"]

/-- Outcome of the `commandMap[operation]` property access. -/
inductive BuilderLookup
  | builder (op : Operation)
  | inherited
  | missing
deriving Repr, DecidableEq

/-- `commandMap[operation]` including the prototype chain: a registered key
yields its builder; an `Object.prototype` member name yields a truthy
inherited value that is not a builder; any other tag yields `undefined`
(and only then is the `if (!builder)` guard taken). -/
def lookupBuilder (s : String) : BuilderLookup :=
  match parseOp s with
  | some op => .builder op
  | none => if s ∈ objectProtoKeys then .inherited else .missing

/-- Credential Resolver: which credentials (if any) an authentication mode
selects.  `gitExtendedApi` uses the stored credential record, `custom` the
inline username/password parameters, anything else none. -/
def resolveCreds (authentication : String) (stored custom : Creds) : Option Creds :=
  if authentication = "gitExtendedApi" then some stored
  else if authentication = "custom" then some custom
  else none

/-! ## Command Builders (one per `commandMap` entry) -/

/-- The `git -C "<repoPath>"` working-directory selector every git
invocation in the source is built from. -/
def gitC (repoPath : String) : String := "git -C \"" ++ repoPath ++ "\""

/-- Mirrors the source's conditional `cmd += suffix` idiom. -/
def optSuffix (c : Prop) [Decidable c] (s sfx : String) : String :=
  if c then s ++ sfx else s

/-- Mirrors the source's conditional `cmd = prefix + cmd` idiom (the scoped
environment-variable assignments). -/
def optPre (c : Prop) [Decidable c] (pre s : String) : String :=
  if c then pre ++ s else s

/-- Clone builder.  Unlike push/pull, a URL parse failure here is *not*
swallowed: the `try` only wraps the `new URL` block and its `catch` rethrows
a build-time error naming the URL. -/
def buildClone (p : Params) : Except String CommandResult :=
  match resolveCreds p.authentication p.storedCreds ⟨p.customUsername, p.customPassword⟩ with
  | some creds =>
    match parseUrlChars p.repoUrl.data with
    | some url =>
      let repoUrl := String.mk (serializeUrlChars (setUserinfo url creds.username creds.password))
      .ok { command := optPre p.skipLfsSmudge "GIT_LFS_SKIP_SMUDGE=1 "
              (gitC p.repoPath ++ (" clone " ++ (repoUrl ++ (" \"" ++ (p.targetPath ++ "\""))))) }
    | none =>
      .error ("Failed to parse the repository URL: " ++ p.repoUrl ++ ". Error: Invalid URL")
  | none =>
    .ok { command := optPre p.skipLfsSmudge "GIT_LFS_SKIP_SMUDGE=1 "
            (gitC p.repoPath ++ (" clone " ++ (p.repoUrl ++ (" \"" ++ (p.targetPath ++ "\""))))) }

/-- The remote the push/pull builders end up using: when the remote is
non-empty and an authenticating mode is selected, credentials are injected
through the URL Authenticator (whose parse failures fall back to the
original string — the source wraps this block in a `try` with an empty
`catch`). -/
def authRemote (p : Params) : String :=
  if p.remote = "" then p.remote
  else
    match resolveCreds p.authentication p.storedCreds ⟨p.customUsername, p.customPassword⟩ with
    | some creds => authenticateUrl p.remote creds.username creds.password
    | none => p.remote

/-- Push builder (`commandMap[Operation.Push]`). -/
def buildPush (p : Params) : CommandResult :=
  let remote := authRemote p
  let cmd₁ :=
    if p.pushLfsObjects then
      optSuffix (p.branch ≠ "")
        (optSuffix (remote ≠ "") (gitC p.repoPath ++ " lfs push --all") (" " ++ remote))
        (" " ++ p.branch) ++ " && "
    else ""
  let cmd₂ := cmd₁ ++ (gitC p.repoPath ++ " push")
  let cmd₃ := optSuffix (remote ≠ "") cmd₂ (" " ++ remote)
  let cmd₄ := optSuffix (p.branch ≠ "") cmd₃ (" " ++ p.branch)
  let cmd₅ := optSuffix p.forcePush cmd₄ " --force"
  { command := optPre p.skipLfsPush "GIT_LFS_SKIP_PUSH=1 " cmd₅ }

/-- Pull builder (`commandMap[Operation.Pull]`). -/
def buildPull (p : Params) : CommandResult :=
  let remote := authRemote p
  let cmd₁ := gitC p.repoPath ++ " pull"
  let cmd₂ := optSuffix (remote ≠ "") cmd₁ (" " ++ remote)
  let cmd₃ := optSuffix (p.branch ≠ "") cmd₂ (" " ++ p.branch)
  { command := optPre p.skipLfsSmudge "GIT_LFS_SKIP_SMUDGE=1 " cmd₃ }

/-- Fetch builder. -/
def buildFetch (p : Params) : CommandResult :=
  let cmd₁ := gitC p.repoPath ++ " fetch"
  let cmd₂ := optSuffix (p.remote ≠ "") cmd₁ (" " ++ p.remote)
  let cmd₃ := optSuffix (p.branch ≠ "") cmd₂ (" " ++ p.branch)
  { command := optPre p.skipLfsSmudge "GIT_LFS_SKIP_SMUDGE=1 " cmd₃ }

/-- LFS-push builder. -/
def buildLfsPushCmd (p : Params) : CommandResult :=
  let cmd₁ := gitC p.repoPath ++ " lfs push --all"
  let cmd₂ := optSuffix (p.remote ≠ "") cmd₁ (" " ++ p.remote)
  let cmd₃ := optSuffix (p.branch ≠ "") cmd₂ (" " ++ p.branch)
  { command := cmd₃ }

/-- Commit builder: working-tree status empty → informational no-op; else
stage everything, re-check the index, and either substitute the second
no-op or emit the commit with the quote-escaped message. -/
def buildCommit (p : Params) (w : World) : CommandResult :=
  if trimStr w.statusOut = "" then { command := "echo \"No changes to commit\"" }
  else if trimStr w.diffOut = "" then { command := "echo \"No staged changes to commit\"" }
  else
    { command := gitC p.repoPath ++ (" commit -m \"" ++ (escapeQuotes p.commitMessage ++ "\"")) }

/-- The sequence of inspection/staging commands the commit builder itself
executes before returning (status; then, when the tree is dirty, `add -A`
followed by the staged-diff re-check). -/
def commitInternalCommands (p : Params) (w : World) : List String :=
  if trimStr w.statusOut = "" then [gitC p.repoPath ++ " status --porcelain"]
  else
    [gitC p.repoPath ++ " status --porcelain",
     gitC p.repoPath ++ " add -A",
     gitC p.repoPath ++ " diff --cached --name-only"]

/-- Apply-patch builder: literal text is written to a freshly generated
temp file (whose name the environment supplies) and that path is both
targeted and returned for later deletion. -/
def buildApplyPatch (p : Params) (w : World) : CommandResult :=
  let pf := if p.patchInput = "text" then (w.tempName, some w.tempName) else (p.patchFile, none)
  { command := gitC p.repoPath ++
      (" apply" ++ ((if p.binary then " --binary" else "") ++ (" \"" ++ (pf.1 ++ "\"")))),
    tempFile := pf.2 }

/-- Configure-user builder: up to two sub-commands joined with `&&`. -/
def buildConfigUser (p : Params) : CommandResult :=
  let commands :=
    (if p.userName ≠ "" then
      [gitC p.repoPath ++ (" config user.name \"" ++ (escapeQuotes p.userName ++ "\""))]
     else []) ++
    (if p.userEmail ≠ "" then
      [gitC p.repoPath ++ (" config user.email \"" ++ (escapeQuotes p.userEmail ++ "\""))]
     else [])
  { command := joinAnd commands }

/-- Cherry-pick builder: an empty commit ID is a build-time error. -/
def buildCherryPick (p : Params) : Except String CommandResult :=
  if p.commit = "" then .error "Commit ID is required"
  else .ok { command := gitC p.repoPath ++ (" cherry-pick " ++ p.commit) }

/-- Revert builder: an empty commit ID is a build-time error. -/
def buildRevert (p : Params) : Except String CommandResult :=
  if p.commit = "" then .error "Commit ID is required"
  else .ok { command := gitC p.repoPath ++ (" revert " ++ (p.commit ++ " --no-edit")) }

/-- Tag builder. -/
def buildTag (p : Params) : CommandResult :=
  { command := optSuffix (p.tagCommit ≠ "") (gitC p.repoPath ++ (" tag " ++ p.tagName))
      (" " ++ p.tagCommit) }

/-- The full `commandMap` dispatch: operation plus parameters (plus the
observed world) to a build result. -/
def buildCommand (op : Operation) (p : Params) (w : World) : Except String CommandResult :=
  match op with
  | .clone => buildClone p
  | .init => .ok { command := gitC p.repoPath ++ " init" }
  | .add => .ok { command := gitC p.repoPath ++ (" add " ++ p.files) }
  | .commit => .ok (buildCommit p w)
  | .push => .ok (buildPush p)
  | .lfsPush => .ok (buildLfsPushCmd p)
  | .pull => .ok (buildPull p)
  | .branches => .ok { command := gitC p.repoPath ++ " branch" }
  | .createBranch => .ok { command := gitC p.repoPath ++ (" branch " ++ p.branchName) }
  | .deleteBranch => .ok { command := gitC p.repoPath ++ (" branch -d " ++ p.branchName) }
  | .renameBranch =>
    .ok { command := gitC p.repoPath ++ (" branch -m " ++ (p.currentName ++ (" " ++ p.newName))) }
  | .commits => .ok { command := gitC p.repoPath ++ " log --oneline" }
  | .status => .ok { command := gitC p.repoPath ++ " status" }
  | .log => .ok { command := gitC p.repoPath ++ " log" }
  | .switch =>
    .ok { command := gitC p.repoPath ++
            (" switch" ++ ((if p.create then " -c" else "") ++ (" " ++ p.target))) }
  | .checkout => .ok { command := gitC p.repoPath ++ (" checkout " ++ p.target) }
  | .merge => .ok { command := gitC p.repoPath ++ (" merge " ++ p.target) }
  | .fetch => .ok (buildFetch p)
  | .rebase => .ok { command := gitC p.repoPath ++ (" rebase " ++ p.upstream) }
  | .cherryPick => buildCherryPick p
  | .revert => buildRevert p
  | .reset =>
    .ok { command := optSuffix (p.commit ≠ "") (gitC p.repoPath ++ " reset --hard")
            (" " ++ p.commit) }
  | .stash => .ok { command := gitC p.repoPath ++ " stash" }
  | .tag => .ok (buildTag p)
  | .applyPatch => .ok (buildApplyPatch p w)
  | .configUser => .ok (buildConfigUser p)

/-! ## Execution Engine -/

/-- Observable behavior of the child process a command would launch. -/
structure ProcBehavior where
  stdout : String := ""
  stderr : String := ""
  exitCode : Nat := 0
deriving Repr, DecidableEq

/-- Model of Node `child_process.exec` with a `maxBuffer` ceiling: a stream
exceeding the ceiling rejects with a buffer-overflow error (the collected
output is discarded, never truncated); otherwise a nonzero exit rejects
with the captured stderr and a zero exit resolves with the full output. -/
def execBuffered (maxBuffer : Nat) (b : ProcBehavior) : Except String (String × String) :=
  if b.stdout.length > maxBuffer then .error "stdout maxBuffer length exceeded"
  else if b.stderr.length > maxBuffer then .error "stderr maxBuffer length exceeded"
  else if b.exitCode ≠ 0 then .error ("Command failed: " ++ b.stderr)
  else .ok (b.stdout, b.stderr)

/-- Node's default `maxBuffer` for `exec` (1 MiB), which the bare
`exec(command)` call in `GitExtended.execute` inherits. -/
def defaultMaxBuffer : Nat := 1024 * 1024

/-- The ceiling of `execLarge` in the source: `200 * 1024 * 1024`. -/
def largeMaxBuffer : Nat := 200 * 1024 * 1024

/-- Captured mode of the Execution Engine: the `exec(command)` call on the
main path of `GitExtended.execute` (default ceiling). -/
def execCaptured (b : ProcBehavior) : Except String (String × String) :=
  execBuffered defaultMaxBuffer b

/-- `execLarge`: the enlarged-buffer exec the commit builder uses for its
internal status/diff inspection commands. -/
def execLarge (b : ProcBehavior) : Except String (String × String) :=
  execBuffered largeMaxBuffer b

/-- `execNoOutput`: discard mode; resolves on exit code zero, rejects with
an error naming the nonzero code. -/
def execNoOutput (b : ProcBehavior) : Except String Unit :=
  if b.exitCode = 0 then .ok ()
  else .error ("Command failed with exit code " ++ toString b.exitCode)

/-- The `try {...} finally { if (tempFile) await fs.unlink(tempFile) }`
block of `GitExtended.execute`: the cleanup always runs once when a temp
file exists, and — per JavaScript semantics — an error thrown by the
cleanup replaces the pending result.  Also returns how many deletion
attempts were made. -/
def runWithCleanup {α : Type} (execRes : Except String α) (tempFile : Option String)
    (unlink : String → Except String Unit) : Except String α × Nat :=
  match tempFile with
  | none => (execRes, 0)
  | some f =>
    match unlink f with
    | .ok _ => (execRes, 1)
    | .error e => (.error e, 1)

/-! ## Batch Dispatcher -/

/-- Per-item environment: the item's parameters, the world its builder
observes, the behavior of the (single) command it launches, and the outcome
of deleting its temp file. -/
structure ItemEnv where
  opName : String := "status"
  params : Params := {}
  world : World := {}
  run : String → ProcBehavior := fun _ => {}
  unlink : String → Except String Unit := fun _ => .ok ()

/-- Per-item success payload shape. -/
inductive Record
  | captured (stdout stderr : String)
  | empty
  | errored (error : String)
deriving Repr, DecidableEq

/-- An item-level failure annotated with the failing item's index. -/
structure ItemError where
  itemIndex : Nat
  message : String
deriving Repr, DecidableEq

/-- Hand a constructed command to the Execution Engine in the mode the item
selects, with the temp-file cleanup wrapped around it, and convert the
outcome into a record (captured output is trimmed). -/
def engineStep (it : ItemEnv) (command : String) (tempFile : Option String) :
    Except String Record :=
  if it.params.skipStdout then
    match (runWithCleanup (execNoOutput (it.run command)) tempFile it.unlink).1 with
    | .ok _ => .ok Record.empty
    | .error e => .error e
  else
    match (runWithCleanup (execCaptured (it.run command)) tempFile it.unlink).1 with
    | .ok oe => .ok (Record.captured (trimStr oe.1) (trimStr oe.2))
    | .error e => .error e

/-- What an item produces when `commandMap[operation]` finds an
`Object.prototype` member instead of a builder: the truthy inherited value
passes the `if (!builder)` guard, but invoking it does not yield a
`{command, tempFile}` record, and the item fails with a runtime TypeError
— modelled here by the text of the common case, `exec` rejecting the
`undefined` destructured command.  (The exact text varies by member, e.g.
a non-function `.call` for `__proto__`, but never has the
"Unsupported operation" form.) -/
def inheritedBuilderError : String :=
  "The \"command\" argument must be of type string. Received undefined"

/-- One item of the `execute` loop: builder lookup (through the prototype
chain), build, execute. -/
def runItem (it : ItemEnv) : Except String Record :=
  match lookupBuilder it.opName with
  | .missing => .error ("Unsupported operation " ++ it.opName)
  | .inherited => .error inheritedBuilderError
  | .builder op =>
    match buildCommand op it.params it.world with
    | .error e => .error e
    | .ok res => engineStep it res.command res.tempFile

/-- The record an item contributes when continue-on-failure converts item
errors into error payloads. -/
def itemRecord (it : ItemEnv) : Record :=
  match runItem it with
  | .ok r => r
  | .error e => .errored e

/-- The `execute` loop from item index `i` on: item errors either become
error payloads (continue-on-failure) or abort the batch annotated with the
item's index. -/
def executeBatch (continueOnFail : Bool) : Nat → List ItemEnv → Except ItemError (List Record)
  | _, [] => .ok []
  | i, it :: rest =>
    match runItem it with
    | .ok r => (executeBatch continueOnFail (i + 1) rest).map (fun rs => r :: rs)
    | .error e =>
      if continueOnFail then
        (executeBatch continueOnFail (i + 1) rest).map (fun rs => Record.errored e :: rs)
      else .error ⟨i, e⟩

/-- The whole batch, as `GitExtended.execute` runs it. -/
def executeAll (continueOnFail : Bool) (items : List ItemEnv) : Except ItemError (List Record) :=
  executeBatch continueOnFail 0 items

/-! ## Substring lemmas -/

theorem listHasPre_self_append (l r : List Char) : listHasPre l (l ++ r) = true := by
  induction l with
  | nil => rfl
  | cons c cs ih => simp [listHasPre, ih]

theorem listHasPre_append_right {p s : List Char} (t : List Char)
    (h : listHasPre p s = true) : listHasPre p (s ++ t) = true := by
  induction p generalizing s with
  | nil => rfl
  | cons c cs ih =>
    cases s with
    | nil => simp [listHasPre] at h
    | cons d ds =>
      simp only [listHasPre, Bool.and_eq_true, decide_eq_true_eq] at h
      simp [listHasPre, h.1, ih h.2]

theorem listHasSub_of_pre {p s : List Char} (h : listHasPre p s = true) :
    listHasSub p s = true := by
  cases s with
  | nil => exact h
  | cons c cs => simp [listHasSub, h]

theorem listHasSub_nil_pat (t : List Char) : listHasSub [] t = true := by
  cases t with
  | nil => rfl
  | cons c cs => simp [listHasSub, listHasPre]

theorem listHasSub_append_left {p s : List Char} (x : List Char)
    (h : listHasSub p s = true) : listHasSub p (x ++ s) = true := by
  induction x with
  | nil => exact h
  | cons c cs ih => simp [listHasSub, ih]

theorem listHasSub_append_right {p s : List Char} (t : List Char)
    (h : listHasSub p s = true) : listHasSub p (s ++ t) = true := by
  induction s with
  | nil =>
    cases p with
    | nil => exact listHasSub_nil_pat t
    | cons c cs => simp [listHasSub, listHasPre] at h
  | cons c cs ih =>
    simp only [listHasSub, Bool.or_eq_true] at h
    rcases h with h | h
    · have := listHasPre_append_right (s := c :: cs) t h
      simp only [List.cons_append] at this
      simp [listHasSub, this]
    · simp [listHasSub, ih h]

theorem strData_append (a b : String) : (a ++ b).data = a.data ++ b.data := rfl

theorem hasSubstr_self_append (p t : String) : hasSubstr p (p ++ t) = true := by
  unfold hasSubstr
  rw [strData_append]
  exact listHasSub_of_pre (listHasPre_self_append p.data t.data)

theorem hasSubstr_append_left {p s : String} (t : String)
    (h : hasSubstr p s = true) : hasSubstr p (t ++ s) = true := by
  unfold hasSubstr at h ⊢
  rw [strData_append]
  exact listHasSub_append_left t.data h

theorem hasSubstr_append_right {p s : String} (t : String)
    (h : hasSubstr p s = true) : hasSubstr p (s ++ t) = true := by
  unfold hasSubstr at h ⊢
  rw [strData_append]
  exact listHasSub_append_right t.data h

theorem hasSubstr_refl (p : String) : hasSubstr p p = true := by
  have := hasSubstr_self_append p ""
  rwa [String.append_empty] at this

/-! ## URL model lemmas -/

theorem splitProto_eq {s : List Char} {ab : List Char × List Char}
    (h : splitProto s = some ab) : s = ab.1 ++ ':' :: '/' :: '/' :: ab.2 := by
  induction s generalizing ab with
  | nil => simp [splitProto] at h
  | cons c cs ih =>
    by_cases hc : c = ':' ∧ cs.take 2 = ['/', '/']
    · simp only [splitProto, if_pos hc, Option.some.injEq] at h
      obtain ⟨hc1, hc2⟩ := hc
      cases cs with
      | nil => simp at hc2
      | cons x xs =>
        cases xs with
        | nil => simp at hc2
        | cons y ys =>
          simp only [List.take, List.cons.injEq] at hc2
          obtain ⟨hx, hy, -⟩ := hc2
          subst hc1 hx hy
          rw [← h]
          rfl
    · simp only [splitProto, if_neg hc, Option.map_eq_some'] at h
      obtain ⟨p, hp, hab⟩ := h
      have := ih hp
      rw [← hab]
      simp [this]

theorem splitProto_fst_none {s : List Char} {ab : List Char × List Char}
    (h : splitProto s = some ab) : splitProto ab.1 = none := by
  induction s generalizing ab with
  | nil => simp [splitProto] at h
  | cons c cs ih =>
    by_cases hc : c = ':' ∧ cs.take 2 = ['/', '/']
    · simp only [splitProto, if_pos hc, Option.some.injEq] at h
      rw [← h]
      rfl
    · simp only [splitProto, if_neg hc, Option.map_eq_some'] at h
      obtain ⟨p, hp, hab⟩ := h
      have h1 := ih hp
      have h2 := splitProto_eq hp
      rw [← hab]
      show splitProto (c :: p.1) = none
      by_cases hd : c = ':' ∧ p.1.take 2 = ['/', '/']
      · exfalso
        apply hc
        refine ⟨hd.1, ?_⟩
        have := hd.2
        cases hp1 : p.1 with
        | nil => rw [hp1] at this; simp at this
        | cons x xs =>
          cases xs with
          | nil => rw [hp1] at this; simp at this
          | cons y ys =>
            rw [hp1] at this
            simp only [List.take, List.cons.injEq] at this
            obtain ⟨hx, hy, -⟩ := this
            rw [h2, hp1, hx, hy]
            rfl
      · simp [splitProto, if_neg hd, h1]

theorem splitProto_append {a : List Char} (b : List Char) (h : splitProto a = none) :
    splitProto (a ++ ':' :: '/' :: '/' :: b) = some (a, b) := by
  induction a with
  | nil => rfl
  | cons c cs ih =>
    by_cases hc : c = ':' ∧ cs.take 2 = ['/', '/']
    · simp [splitProto, if_pos hc] at h
    · have hcs : splitProto cs = none := by
        by_cases hd : splitProto cs = none
        · exact hd
        · exfalso
          rcases Option.ne_none_iff_exists'.mp hd with ⟨p, hp⟩
          simp [splitProto, if_neg hc, hp] at h
      have htail : ¬(c = ':' ∧ (cs ++ ':' :: '/' :: '/' :: b).take 2 = ['/', '/']) := by
        rintro ⟨hc1, hc2⟩
        apply hc
        refine ⟨hc1, ?_⟩
        cases hcc : cs with
        | nil => rw [hcc] at hc2; simp at hc2
        | cons x xs =>
          cases hxx : xs with
          | nil =>
            rw [hcc, hxx] at hc2
            simp only [List.cons_append, List.nil_append, List.take, List.cons.injEq] at hc2
            obtain ⟨hx, hy, -⟩ := hc2
            exact absurd hy (by decide)
          | cons y ys =>
            rw [hcc, hxx] at hc2
            simp only [List.cons_append, List.take, List.cons.injEq] at hc2
            obtain ⟨hx, hy, -⟩ := hc2
            rw [hx, hy]
            rfl
      rw [List.cons_append]
      simp [splitProto, if_neg htail, ih hcs]

theorem splitAuthority_eq {l : List Char} :
    l = (splitAuthority l).1 ++ (splitAuthority l).2 ∧
      (∀ c ∈ (splitAuthority l).1, isAuthEnd c = false) ∧
      ((splitAuthority l).2 = [] ∨
        ∃ c t, (splitAuthority l).2 = c :: t ∧ isAuthEnd c = true) := by
  induction l with
  | nil => exact ⟨rfl, by simp [splitAuthority], Or.inl rfl⟩
  | cons c cs ih =>
    by_cases hc : isAuthEnd c = true
    · refine ⟨?_, ?_, ?_⟩
      · simp [splitAuthority, if_pos hc]
      · simp [splitAuthority, if_pos hc]
      · simp only [splitAuthority, if_pos hc]
        exact Or.inr ⟨c, cs, rfl, hc⟩
    · have hc' : isAuthEnd c = false := by
        cases h : isAuthEnd c
        · rfl
        · exact absurd h hc
      obtain ⟨ih1, ih2, ih3⟩ := ih
      refine ⟨?_, ?_, ?_⟩
      · simp only [splitAuthority, if_neg hc]
        exact congrArg (c :: ·) ih1
      · simp only [splitAuthority, if_neg hc]
        intro d hd
        rcases List.mem_cons.mp hd with h | h
        · rw [h]; exact hc'
        · exact ih2 d h
      · simpa only [splitAuthority, if_neg hc] using ih3

theorem splitAuthority_append {a : List Char} (r : List Char)
    (ha : ∀ c ∈ a, isAuthEnd c = false)
    (hr : r = [] ∨ ∃ c t, r = c :: t ∧ isAuthEnd c = true) :
    splitAuthority (a ++ r) = (a, r) := by
  induction a with
  | nil =>
    rcases hr with h | ⟨c, t, hct, hc⟩
    · subst h; rfl
    · subst hct
      simp [splitAuthority, if_pos hc]
  | cons x xs ih =>
    have hx : isAuthEnd x = false := ha x (by simp)
    have hxs : ∀ c ∈ xs, isAuthEnd c = false := fun c hc => ha c (by simp [hc])
    rw [List.cons_append]
    simp [splitAuthority, hx, ih hxs]

theorem splitAtFirst_eq {sep : Char} {l : List Char} {ab : List Char × List Char}
    (h : splitAtFirst sep l = some ab) : l = ab.1 ++ sep :: ab.2 ∧ sep ∉ ab.1 := by
  induction l generalizing ab with
  | nil => simp [splitAtFirst] at h
  | cons c cs ih =>
    by_cases hc : c = sep
    · simp only [splitAtFirst, if_pos hc, Option.some.injEq] at h
      rw [← h, hc]
      exact ⟨rfl, by simp⟩
    · simp only [splitAtFirst, if_neg hc, Option.map_eq_some'] at h
      obtain ⟨p, hp, hab⟩ := h
      obtain ⟨h1, h2⟩ := ih hp
      rw [← hab]
      constructor
      · simp [h1]
      · simp only [List.mem_cons, not_or]
        exact ⟨fun hx => hc hx.symm, h2⟩

theorem splitAtFirst_append {sep : Char} {a : List Char} (b : List Char)
    (h : sep ∉ a) : splitAtFirst sep (a ++ sep :: b) = some (a, b) := by
  induction a with
  | nil => simp [splitAtFirst]
  | cons c cs ih =>
    have hc : ¬(c = sep) := fun hx => h (by simp [hx])
    have hcs : sep ∉ cs := fun hx => h (by simp [hx])
    rw [List.cons_append]
    simp [splitAtFirst, if_neg hc, ih hcs]

theorem splitAtFirst_none {sep : Char} {l : List Char} (h : sep ∉ l) :
    splitAtFirst sep l = none := by
  induction l with
  | nil => rfl
  | cons c cs ih =>
    have hc : ¬(c = sep) := fun hx => h (by simp [hx])
    have hcs : sep ∉ cs := fun hx => h (by simp [hx])
    simp [splitAtFirst, if_neg hc, ih hcs]

theorem mem_encodeUserinfo {c : Char} {l : List Char} (h : c ∈ encodeUserinfo l) :
    needsEscape c = false := by
  unfold encodeUserinfo at h
  rcases List.mem_flatMap.mp h with ⟨a, -, hca⟩
  unfold encodeChar at hca
  by_cases h1 : a = '/'
  · rw [if_pos h1] at hca
    fin_cases hca <;> decide
  rw [if_neg h1] at hca
  by_cases h2 : a = ':'
  · rw [if_pos h2] at hca
    fin_cases hca <;> decide
  rw [if_neg h2] at hca
  by_cases h3 : a = '@'
  · rw [if_pos h3] at hca
    fin_cases hca <;> decide
  rw [if_neg h3] at hca
  by_cases h4 : a = '?'
  · rw [if_pos h4] at hca
    fin_cases hca <;> decide
  rw [if_neg h4] at hca
  by_cases h5 : a = '#'
  · rw [if_pos h5] at hca
    fin_cases hca <;> decide
  rw [if_neg h5] at hca
  simp only [List.mem_singleton] at hca
  subst hca
  simp [needsEscape, h1, h2, h3, h4, h5]

theorem isAuthEnd_of_needsEscape {c : Char} (h : needsEscape c = false) :
    isAuthEnd c = false := by
  simp only [needsEscape, Bool.or_eq_false_iff, decide_eq_false_iff_not] at h
  simp [isAuthEnd, h.1.1.1.1, h.1.2, h.2]

theorem ne_colon_of_needsEscape {c : Char} (h : needsEscape c = false) : ¬(c = ':') := by
  simp only [needsEscape, Bool.or_eq_false_iff, decide_eq_false_iff_not] at h
  exact h.1.1.1.2

theorem splitAtFirst_some_of_mem {sep : Char} {l : List Char} (h : sep ∈ l) :
    ∃ ab, splitAtFirst sep l = some ab := by
  induction l with
  | nil => simp at h
  | cons c cs ih =>
    by_cases hc : c = sep
    · exact ⟨([], cs), by simp [splitAtFirst, hc]⟩
    · rcases List.mem_cons.mp h with h1 | h1
      · exact absurd h1.symm hc
      · obtain ⟨ab, hab⟩ := ih h1
        exact ⟨(c :: ab.1, ab.2), by simp [splitAtFirst, if_neg hc, hab]⟩

theorem not_mem_of_splitAtFirst_none {sep : Char} {l : List Char}
    (h : splitAtFirst sep l = none) : sep ∉ l := by
  intro hmem
  obtain ⟨ab, hab⟩ := splitAtFirst_some_of_mem hmem
  rw [h] at hab
  exact Option.noConfusion hab

/-- Invariants every parsed URL satisfies, needed to re-parse its
serialization. -/
theorem parseUrlChars_inv {s : List Char} {u : Url} (h : parseUrlChars s = some u) :
    splitProto u.scheme = none ∧ (∀ c ∈ u.host, isAuthEnd c = false) ∧ '@' ∉ u.host ∧
      (u.rest = [] ∨ ∃ c t, u.rest = c :: t ∧ isAuthEnd c = true) := by
  cases hsp : splitProto s with
  | none =>
    unfold parseUrlChars at h
    rw [hsp] at h
    exact Option.noConfusion h
  | some st =>
    unfold parseUrlChars at h
    rw [hsp] at h
    dsimp only at h
    have hscheme : splitProto st.1 = none := splitProto_fst_none hsp
    obtain ⟨-, hauth, hrest⟩ := splitAuthority_eq (l := st.2)
    cases hua : splitAtFirst '@' (splitAuthority st.2).1.reverse with
    | none =>
      rw [hua] at h
      have hnm : '@' ∉ (splitAuthority st.2).1 := by
        have := not_mem_of_splitAtFirst_none hua
        intro hx
        exact this (List.mem_reverse.mpr hx)
      cases h
      exact ⟨hscheme, hauth, hnm, hrest⟩
    | some hu =>
      rw [hua] at h
      dsimp only at h
      obtain ⟨hdec, hnm1⟩ := splitAtFirst_eq hua
      have hhost_mem : ∀ c ∈ hu.1.reverse, c ∈ (splitAuthority st.2).1 := by
        intro c hc
        have h1 : c ∈ hu.1 := List.mem_reverse.mp hc
        have h2 : c ∈ (splitAuthority st.2).1.reverse := by
          rw [hdec]
          exact List.mem_append.mpr (Or.inl h1)
        exact List.mem_reverse.mp h2
      have hhost1 : ∀ c ∈ hu.1.reverse, isAuthEnd c = false :=
        fun c hc => hauth c (hhost_mem c hc)
      have hhost2 : '@' ∉ hu.1.reverse := fun hx => hnm1 (List.mem_reverse.mp hx)
      cases hui : splitAtFirst ':' hu.2.reverse with
      | none =>
        rw [hui] at h
        cases h
        exact ⟨hscheme, hhost1, hhost2, hrest⟩
      | some up =>
        rw [hui] at h
        cases h
        exact ⟨hscheme, hhost1, hhost2, hrest⟩

theorem mem_userinfo_not_authEnd {u : Url}
    (hu : ∀ c ∈ u.username, needsEscape c = false)
    (hp : ∀ c ∈ u.password, needsEscape c = false) :
    ∀ c ∈ userinfoChars u, isAuthEnd c = false := by
  intro c hc
  unfold userinfoChars at hc
  by_cases hboth : u.username = [] ∧ u.password = []
  · rw [if_pos hboth] at hc
    simp at hc
  · rw [if_neg hboth] at hc
    rcases List.mem_append.mp hc with h1 | h1
    · rcases List.mem_append.mp h1 with h2 | h2
      · exact isAuthEnd_of_needsEscape (hu c h2)
      · by_cases hpw : u.password = []
        · rw [if_pos hpw] at h2
          simp at h2
        · rw [if_neg hpw] at h2
          rcases List.mem_cons.mp h2 with h3 | h3
          · rw [h3]; rfl
          · exact isAuthEnd_of_needsEscape (hp c h3)
    · simp only [List.mem_singleton] at h1
      rw [h1]
      rfl

/-- Round trip: a URL whose components satisfy the parse invariants (as all
parsed URLs with freshly encoded user-info do) re-parses from its
serialization to itself. -/
theorem parse_serializeUrl {u : Url}
    (hs : splitProto u.scheme = none)
    (hh1 : ∀ c ∈ u.host, isAuthEnd c = false)
    (hh2 : '@' ∉ u.host)
    (hr : u.rest = [] ∨ ∃ c t, u.rest = c :: t ∧ isAuthEnd c = true)
    (hu : ∀ c ∈ u.username, needsEscape c = false)
    (hp : ∀ c ∈ u.password, needsEscape c = false) :
    parseUrlChars (serializeUrlChars u) = some u := by
  have hser : serializeUrlChars u =
      u.scheme ++ ':' :: '/' :: '/' :: (userinfoChars u ++ (u.host ++ u.rest)) := by
    unfold serializeUrlChars
    simp [List.append_assoc]
  have hsp : splitProto (serializeUrlChars u) =
      some (u.scheme, userinfoChars u ++ (u.host ++ u.rest)) := by
    rw [hser]
    exact splitProto_append _ hs
  have hauth : splitAuthority (userinfoChars u ++ (u.host ++ u.rest)) =
      (userinfoChars u ++ u.host, u.rest) := by
    have := splitAuthority_append (a := userinfoChars u ++ u.host) u.rest
      (by
        intro c hc
        rcases List.mem_append.mp hc with h1 | h1
        · exact mem_userinfo_not_authEnd hu hp c h1
        · exact hh1 c h1)
      hr
    rwa [List.append_assoc] at this
  unfold parseUrlChars
  rw [hsp]
  dsimp only
  rw [hauth]
  dsimp only
  by_cases hboth : u.username = [] ∧ u.password = []
  · have hui : userinfoChars u = [] := by unfold userinfoChars; rw [if_pos hboth]
    rw [hui, List.nil_append]
    have hna : splitAtFirst '@' u.host.reverse = none :=
      splitAtFirst_none (fun hx => hh2 (List.mem_reverse.mp hx))
    rw [hna]
    obtain ⟨h1, h2⟩ := hboth
    cases u
    simp_all
  · have hui : userinfoChars u =
        (u.username ++ (if u.password = [] then [] else ':' :: u.password)) ++ ['@'] := by
      unfold userinfoChars
      rw [if_neg hboth, List.append_assoc]
    set W := u.username ++ (if u.password = [] then [] else ':' :: u.password) with hW
    have hrev : (userinfoChars u ++ u.host).reverse = u.host.reverse ++ '@' :: W.reverse := by
      rw [hui, List.append_assoc]
      show (W ++ ('@' :: u.host)).reverse = _
      rw [List.reverse_append]
      simp
    have hsplit : splitAtFirst '@' (userinfoChars u ++ u.host).reverse =
        some (u.host.reverse, W.reverse) := by
      rw [hrev]
      exact splitAtFirst_append _ (fun hx => hh2 (List.mem_reverse.mp hx))
    rw [hsplit]
    dsimp only
    rw [List.reverse_reverse, List.reverse_reverse]
    have hnc : ':' ∉ u.username := fun hx => ne_colon_of_needsEscape (hu ':' hx) rfl
    by_cases hpw : u.password = []
    · have hWu : W = u.username := by rw [hW, if_pos hpw, List.append_nil]
      rw [hWu, splitAtFirst_none hnc]
      cases u
      simp_all
    · have hWu : W = u.username ++ ':' :: u.password := by rw [hW, if_neg hpw]
      rw [hWu, splitAtFirst_append _ hnc]

/-! ## Batch dispatcher lemmas -/

theorem executeBatch_continue (i : Nat) (items : List ItemEnv) :
    executeBatch true i items = .ok (items.map itemRecord) := by
  induction items generalizing i with
  | nil => rfl
  | cons it rest ih =>
    unfold executeBatch
    cases hri : runItem it with
    | ok r =>
      have hit : itemRecord it = r := by simp [itemRecord, hri]
      rw [ih (i + 1)]
      simp [Except.map, hit]
    | error e =>
      have hit : itemRecord it = .errored e := by simp [itemRecord, hri]
      rw [ih (i + 1)]
      simp [Except.map, hit]

theorem executeBatch_abort {items : List ItemEnv} {k : Nat} {it : ItemEnv} {m : String}
    (hk : items[k]? = some it) (hf : runItem it = .error m)
    (hpre : ∀ j itj, j < k → items[j]? = some itj → ∃ r, runItem itj = .ok r) :
    ∀ i, executeBatch false i items = .error ⟨i + k, m⟩ := by
  induction items generalizing k with
  | nil => simp at hk
  | cons x rest ih =>
    intro i
    cases k with
    | zero =>
      simp only [List.getElem?_cons_zero, Option.some.injEq] at hk
      subst hk
      unfold executeBatch
      rw [hf]
      rfl
    | succ k' =>
      simp only [List.getElem?_cons_succ] at hk
      obtain ⟨r, hr⟩ := hpre 0 x (Nat.succ_pos k') (by simp)
      have hpre' : ∀ j itj, j < k' → rest[j]? = some itj → ∃ r, runItem itj = .ok r := by
        intro j itj hj hjt
        exact hpre (j + 1) itj (Nat.succ_lt_succ hj) (by simpa using hjt)
      have hrec := ih hk hpre' (i + 1)
      have harith : i + 1 + k' = i + (k' + 1) := by omega
      unfold executeBatch
      rw [hr, hrec, harith]
      rfl

theorem runItem_ok_shape {it : ItemEnv} {r : Record} (h : runItem it = .ok r) :
    (it.params.skipStdout = true ∧ r = .empty) ∨
      (it.params.skipStdout = false ∧
        ∃ out err, r = .captured (trimStr out) (trimStr err)) := by
  unfold runItem at h
  cases hop : lookupBuilder it.opName with
  | missing => rw [hop] at h; exact Except.noConfusion h
  | inherited => rw [hop] at h; exact Except.noConfusion h
  | builder op =>
    rw [hop] at h
    dsimp only at h
    cases hbc : buildCommand op it.params it.world with
    | error e => rw [hbc] at h; exact Except.noConfusion h
    | ok res =>
      rw [hbc] at h
      dsimp only at h
      unfold engineStep at h
      cases hskip : it.params.skipStdout with
      | true =>
        rw [if_pos hskip] at h
        cases hcl : (runWithCleanup (execNoOutput (it.run res.command)) res.tempFile it.unlink).1 with
        | ok v => rw [hcl] at h; cases h; exact Or.inl ⟨rfl, rfl⟩
        | error e => rw [hcl] at h; exact Except.noConfusion h
      | false =>
        have hns : ¬(it.params.skipStdout = true) := by rw [hskip]; exact Bool.false_ne_true
        rw [if_neg hns] at h
        cases hcl : (runWithCleanup (execCaptured (it.run res.command)) res.tempFile it.unlink).1 with
        | ok oe =>
          rw [hcl] at h
          cases h
          exact Or.inr ⟨rfl, oe.1, oe.2, rfl⟩
        | error e => rw [hcl] at h; exact Except.noConfusion h

/-! ## Combinator lemmas -/

theorem strEq_of_data {a b : String} (h : a.data = b.data) : a = b := by
  cases a
  cases b
  exact congrArg String.mk h

theorem empty_append_str (s : String) : "" ++ s = s :=
  strEq_of_data (by simp [strData_append])

theorem optPre_eq (c : Prop) [Decidable c] (a s : String) :
    optPre c a s = (if c then a else "") ++ s := by
  unfold optPre
  split
  · rfl
  · exact (empty_append_str s).symm

theorem optSuffix_hasSubstr {p s : String} (c : Prop) [Decidable c] (t : String)
    (h : hasSubstr p s = true) : hasSubstr p (optSuffix c s t) = true := by
  unfold optSuffix
  split
  · exact hasSubstr_append_right t h
  · exact h

theorem optPre_hasSubstr {p s : String} (c : Prop) [Decidable c] (t : String)
    (h : hasSubstr p s = true) : hasSubstr p (optPre c t s) = true := by
  unfold optPre
  split
  · exact hasSubstr_append_left t h
  · exact h

theorem optSuffix_exists_append (c : Prop) [Decidable c] (s t : String) :
    ∃ u, optSuffix c s t = s ++ u := by
  unfold optSuffix
  split
  · exact ⟨t, rfl⟩
  · exact ⟨"", (String.append_empty s).symm⟩

theorem optSuffix_append_left (c : Prop) [Decidable c] (a s t : String) :
    optSuffix c (a ++ s) t = a ++ optSuffix c s t := by
  unfold optSuffix
  split
  · exact String.append_assoc a s t
  · rfl

theorem escapeQuotes_data (s : String) :
    (escapeQuotes s).data =
      s.data.flatMap (fun c => if c = '"' then ['\\', '"'] else [c]) := by
  show s.data.foldr (fun c acc => if c = '"' then '\\' :: '"' :: acc else c :: acc) [] = _
  induction s.data with
  | nil => rfl
  | cons c cs ih =>
    by_cases hc : c = '"' <;> simp [hc, ih]

/-! ## Claim theorems -/

/-- Claim C3 counterexample: when deleting the temp file fails after the
execution itself already failed, the deletion error replaces — masks — the
original execution error, contrary to the claim that a deletion failure
does not mask an original execution error. -/
theorem c3_cleanup_masks_counterexample :
    (runWithCleanup (α := String × String) (.error "git apply failed")
        (some "/tmp/patch-1") (fun _ => .error "unlink: EACCES")).1 =
      .error "unlink: EACCES" ∧
    (Except.error "unlink: EACCES" : Except String (String × String)) ≠
      .error "git apply failed" := by
  refine ⟨rfl, fun h => ?_⟩
  injection h with h2
  exact absurd h2 (by decide)

/-- Claim C3 (amended): for every item whose builder created a temporary
patch file (apply-patch with literal text), the cleanup phase always runs,
attempting the deletion exactly once whether execution succeeded or failed;
but when the deletion itself fails, its error replaces the pending
execution result (an original execution error is masked). -/
theorem c3_tempfile_cleanup (p : Params) (w : World) (hp : p.patchInput = "text") :
    (buildApplyPatch p w).tempFile = some w.tempName ∧
    ∀ (execRes : Except String (String × String)) (f : String)
        (unlink : String → Except String Unit),
      (runWithCleanup execRes (some f) unlink).2 = 1 ∧
      (runWithCleanup execRes none unlink).2 = 0 ∧
      (unlink f = .ok () → (runWithCleanup execRes (some f) unlink).1 = execRes) ∧
      (∀ e, unlink f = .error e → (runWithCleanup execRes (some f) unlink).1 = .error e) := by
  constructor
  · simp [buildApplyPatch, hp]
  · intro execRes f unlink
    refine ⟨?_, rfl, fun hok => ?_, fun e herr => ?_⟩
    · cases h : unlink f <;> simp [runWithCleanup, h]
    · simp [runWithCleanup, hok]
    · simp [runWithCleanup, herr]

/-- Witness for the amended C3 at a concrete item. -/
theorem c3_tempfile_cleanup_witness :
    (buildApplyPatch { patchInput := "text" } { tempName := "/tmp/patch-7" }).tempFile =
        some "/tmp/patch-7" ∧
      (runWithCleanup (α := String × String) (.error "boom") (some "/tmp/patch-7")
          (fun _ => .ok ())).2 = 1 :=
  ⟨(c3_tempfile_cleanup { patchInput := "text" } { tempName := "/tmp/patch-7" } rfl).1,
   ((c3_tempfile_cleanup { patchInput := "text" } { tempName := "/tmp/patch-7" } rfl).2
      (.error "boom") "/tmp/patch-7" (fun _ => .ok ())).1⟩

/-- Claim C10: configure-user with both parameters empty builds
successfully, yielding an empty command string with no temp file — not a
build-time validation error — and the dispatcher hands exactly that empty
command to the execution engine. -/
theorem c10_configUser_empty (it : ItemEnv)
    (hop : it.opName = "configUser")
    (hn : it.params.userName = "") (he : it.params.userEmail = "") :
    buildCommand .configUser it.params it.world = .ok { command := "", tempFile := none } ∧
    runItem it = engineStep it "" none := by
  have hbc : buildCommand .configUser it.params it.world =
      .ok { command := "", tempFile := none } := by
    simp [buildCommand, buildConfigUser, hn, he, joinAnd]
  refine ⟨hbc, ?_⟩
  unfold runItem
  rw [hop, show lookupBuilder "configUser" = .builder Operation.configUser from by decide]
  dsimp only
  rw [hbc]

/-- Witness for C10 at a concrete item. -/
theorem c10_configUser_empty_witness :
    buildCommand .configUser ({ userName := "", userEmail := "" } : Params) ({} : World) =
        .ok { command := "", tempFile := none } ∧
      runItem { opName := "configUser", params := { userName := "", userEmail := "" } } =
        engineStep { opName := "configUser", params := { userName := "", userEmail := "" } }
          "" none :=
  c10_configUser_empty
    { opName := "configUser", params := { userName := "", userEmail := "" } } rfl rfl rfl

/-- Claim C2 counterexample: a captured-mode invocation whose output is
2 MiB — far below a hundreds-of-megabytes ceiling — already fails with a
buffer-overflow error, because the engine's captured mode runs the plain
`exec(command)` with Node's default 1 MiB ceiling; the 200 MiB ceiling
belongs to `execLarge`, which the main execution path does not use. -/
theorem execCaptured_overflow {b : ProcBehavior} (h : b.stdout.length > defaultMaxBuffer) :
    execCaptured b = .error "stdout maxBuffer length exceeded" := by
  unfold execCaptured execBuffered
  rw [if_pos h]

theorem c2_small_output_overflows_counterexample :
    execCaptured { stdout := String.mk (List.replicate (2 * 1024 * 1024) 'a'),
                   stderr := "", exitCode := 0 } =
      .error "stdout maxBuffer length exceeded" ∧
    (2 * 1024 * 1024 : Nat) < 100 * 1024 * 1024 := by
  have hlen : ∀ n : Nat, (String.mk (List.replicate n 'a')).length = n := by
    intro n
    simp [String.length]
  refine ⟨execCaptured_overflow ?_, by norm_num⟩
  show (String.mk (List.replicate (2 * 1024 * 1024) 'a')).length > defaultMaxBuffer
  rw [hlen]
  unfold defaultMaxBuffer
  norm_num

/-- Claim C2 (amended): in captured mode the engine buffers stdout and
stderr in full up to its actual ceiling — Node's default 1 MiB, not one on
the order of hundreds of megabytes — and a command whose output exceeds
that ceiling fails with a buffer-overflow error rather than being silently
truncated.  The 200 MiB ceiling exists (`execLarge`) but serves only the
commit builder's internal status/diff inspection commands. -/
theorem c2_captured_buffer_policy (b : ProcBehavior) :
    defaultMaxBuffer = 1024 * 1024 ∧ largeMaxBuffer = 200 * 1024 * 1024 ∧
    (b.stdout.length ≤ defaultMaxBuffer → b.stderr.length ≤ defaultMaxBuffer →
      b.exitCode = 0 → execCaptured b = .ok (b.stdout, b.stderr)) ∧
    (b.stdout.length > defaultMaxBuffer →
      execCaptured b = .error "stdout maxBuffer length exceeded") ∧
    (b.stdout.length ≤ defaultMaxBuffer → b.stderr.length > defaultMaxBuffer →
      execCaptured b = .error "stderr maxBuffer length exceeded") := by
  refine ⟨rfl, rfl, fun h1 h2 h3 => ?_, fun h1 => ?_, fun h1 h2 => ?_⟩
  · unfold execCaptured execBuffered
    rw [if_neg (Nat.not_lt.mpr h1), if_neg (Nat.not_lt.mpr h2), if_neg (by simp [h3])]
  · unfold execCaptured execBuffered
    rw [if_pos h1]
  · unfold execCaptured execBuffered
    rw [if_neg (Nat.not_lt.mpr h1), if_pos h2]

/-- Witness for the amended C2 at a concrete process behavior. -/
theorem c2_captured_buffer_policy_witness :
    execCaptured { stdout := "out", stderr := "warn", exitCode := 0 } = .ok ("out", "warn") :=
  (c2_captured_buffer_policy _).2.2.1 (by decide) (by decide) rfl

/-- Claim C5: with continue-on-failure enabled the batch never aborts; the
result collection is the per-item records in input order, one per item with
equal length, and every record is a trimmed captured payload (captured
success), the empty payload (skip-output success), or an error payload
(failed item). -/
theorem c5_continue_on_fail_shape (items : List ItemEnv) :
    executeAll true items = .ok (items.map itemRecord) ∧
    (items.map itemRecord).length = items.length ∧
    ∀ it ∈ items,
      (it.params.skipStdout = true ∧ runItem it = .ok (itemRecord it) ∧
        itemRecord it = .empty) ∨
      (it.params.skipStdout = false ∧ runItem it = .ok (itemRecord it) ∧
        ∃ out err, itemRecord it = .captured (trimStr out) (trimStr err)) ∨
      (∃ e, runItem it = .error e ∧ itemRecord it = .errored e) := by
  refine ⟨executeBatch_continue 0 items, by simp, ?_⟩
  intro it _
  cases hri : runItem it with
  | ok r =>
    have hit : itemRecord it = r := by simp [itemRecord, hri]
    rcases runItem_ok_shape hri with ⟨hs, hr⟩ | ⟨hs, out, err, hr⟩
    · exact Or.inl ⟨hs, by rw [hit], by rw [hit, hr]⟩
    · exact Or.inr (Or.inl ⟨hs, by rw [hit], out, err, by rw [hit, hr]⟩)
  | error e =>
    exact Or.inr (Or.inr ⟨e, rfl, by simp [itemRecord, hri]⟩)

/-- Witness for C5: a concrete two-item batch (one success, one failure)
keeps one record per item in order. -/
theorem c5_continue_on_fail_shape_witness :
    executeAll true [{ opName := "status" }, { opName := "unknown" }] =
      .ok ([{ opName := "status" }, ({ opName := "unknown" } : ItemEnv)].map itemRecord) ∧
    ([({ opName := "status" } : ItemEnv), { opName := "unknown" }].map itemRecord).length = 2 ∧
    (∃ e, runItem ({ opName := "unknown" } : ItemEnv) = .error e ∧
      itemRecord ({ opName := "unknown" } : ItemEnv) = .errored e) := by
  refine ⟨(c5_continue_on_fail_shape _).1, (c5_continue_on_fail_shape _).2.1, ?_⟩
  have h := (c5_continue_on_fail_shape [{ opName := "status" }, { opName := "unknown" }]).2.2
    { opName := "unknown" } (by simp)
  rcases h with ⟨-, hok, -⟩ | ⟨-, hok, -⟩ | h
  · exact absurd hok (by intro hx; cases hx)
  · exact absurd hok (by intro hx; cases hx)
  · exact h

theorem inheritedBuilderError_ne (s : String) :
    inheritedBuilderError ≠ "Unsupported operation " ++ s := by
  intro h
  have hh : inheritedBuilderError.data = ("Unsupported operation " ++ s).data :=
    congrArg String.data h
  rw [strData_append] at hh
  rw [show "Unsupported operation ".data = 'U' :: "nsupported operation ".data from rfl] at hh
  rw [show inheritedBuilderError.data =
    'T' :: "he \"command\" argument must be of type string. Received undefined".data
    from rfl] at hh
  simp only [List.cons_append, List.cons.injEq] at hh
  exact absurd hh.1 (by decide)

/-- Claim C6 counterexample: the tag "toString" has no registered builder,
yet the plain-object lookup finds the inherited `Object.prototype` member
— a truthy non-builder — so the unsupported-operation guard is bypassed
and the item fails with a TypeError that does not name the operation. -/
theorem c6_proto_key_counterexample :
    parseOp "toString" = none ∧
    lookupBuilder "toString" = .inherited ∧
    runItem { opName := "toString" } = .error inheritedBuilderError ∧
    inheritedBuilderError ≠ "Unsupported operation " ++ "toString" :=
  ⟨by decide, by decide, rfl, inheritedBuilderError_ne "toString"⟩

/-- Claim C6 (amended): an operation tag with no registered builder that is
not an `Object.prototype` property name fails its item with an error naming
the operation ("Unsupported operation ..."); without continue-on-failure
the whole batch aborts with that error annotated with the item's index
(given the earlier items succeed), and with it an error payload is recorded
at that position while processing continues, still yielding one record per
item.  A tag that collides with an `Object.prototype` member name instead
bypasses the guard — the inherited value is truthy — and the item fails
with a TypeError that does not name the operation. -/
theorem c6_unsupported_operation (items : List ItemEnv) (k : Nat) (it : ItemEnv)
    (hk : items[k]? = some it) (hop : parseOp it.opName = none) :
    (it.opName ∉ objectProtoKeys →
      runItem it = .error ("Unsupported operation " ++ it.opName) ∧
      ((∀ j itj, j < k → items[j]? = some itj → ∃ r, runItem itj = .ok r) →
        executeAll false items = .error ⟨k, "Unsupported operation " ++ it.opName⟩) ∧
      executeAll true items = .ok (items.map itemRecord) ∧
      (items.map itemRecord).length = items.length ∧
      (items.map itemRecord)[k]? =
        some (.errored ("Unsupported operation " ++ it.opName))) ∧
    (it.opName ∈ objectProtoKeys →
      runItem it = .error inheritedBuilderError ∧
      inheritedBuilderError ≠ "Unsupported operation " ++ it.opName) := by
  constructor
  · intro hnm
    have hre : runItem it = .error ("Unsupported operation " ++ it.opName) := by
      unfold runItem lookupBuilder
      rw [hop]
      dsimp only
      rw [if_neg hnm]
    refine ⟨hre, fun hpre => ?_, executeBatch_continue 0 items, by simp, ?_⟩
    · have h := executeBatch_abort hk hre hpre 0
      simpa using h
    · rw [List.getElem?_map, hk]
      simp [itemRecord, hre]
  · intro hmem
    refine ⟨?_, inheritedBuilderError_ne it.opName⟩
    unfold runItem lookupBuilder
    rw [hop]
    dsimp only
    rw [if_pos hmem]

/-- Witness for the amended C6: a batch whose second item carries the
unregistered non-prototype tag "unknown" aborts at index 1 in fail-fast
mode, while the prototype tag "toString" fails without naming the
operation. -/
theorem c6_unsupported_operation_witness :
    (runItem ({ opName := "unknown" } : ItemEnv) =
        .error ("Unsupported operation " ++ "unknown") ∧
      executeAll false [{ opName := "status" }, { opName := "unknown" }] =
        .error ⟨1, "Unsupported operation " ++ "unknown"⟩) ∧
    (runItem ({ opName := "toString" } : ItemEnv) = .error inheritedBuilderError ∧
      inheritedBuilderError ≠ "Unsupported operation " ++ "toString") := by
  constructor
  · have h := c6_unsupported_operation [{ opName := "status" }, { opName := "unknown" }] 1
      { opName := "unknown" } (by simp) (by decide)
    have hm := h.1 (by decide)
    refine ⟨hm.1, hm.2.1 ?_⟩
    intro j itj hj hjt
    have hj0 : j = 0 := by omega
    subst hj0
    simp only [List.getElem?_cons_zero, Option.some.injEq] at hjt
    subst hjt
    exact ⟨Record.captured "" "", rfl⟩
  · have h := c6_unsupported_operation [({ opName := "toString" } : ItemEnv)] 0
      { opName := "toString" } (by simp) (by decide)
    exact h.2 (by decide)

theorem flatMapEsc_of_foldr (l : List Char) :
    l.foldr (fun c acc => if c = '"' then '\\' :: '"' :: acc else c :: acc) [] =
      l.flatMap (fun c => if c = '"' then ['\\', '"'] else [c]) := by
  induction l with
  | nil => rfl
  | cons c cs ih => by_cases hc : c = '"' <;> simp [hc, ih]

/-- Claim C4: the commit builder yields a no-op informational command when
status reports nothing pending; otherwise it stages everything (`add -A`),
re-checks the index, substitutes the second no-op when nothing is staged,
and otherwise emits a commit whose message has each embedded double quote
escaped to backslash-quote. -/
theorem c4_commit_algorithm (p : Params) (w : World) :
    (trimStr w.statusOut = "" →
      buildCommit p w = { command := "echo \"No changes to commit\"", tempFile := none } ∧
      commitInternalCommands p w = [gitC p.repoPath ++ " status --porcelain"]) ∧
    (trimStr w.statusOut ≠ "" →
      (gitC p.repoPath ++ " add -A") ∈ commitInternalCommands p w ∧
      (gitC p.repoPath ++ " diff --cached --name-only") ∈ commitInternalCommands p w ∧
      (trimStr w.diffOut = "" →
        buildCommit p w =
          { command := "echo \"No staged changes to commit\"", tempFile := none }) ∧
      (trimStr w.diffOut ≠ "" →
        buildCommit p w =
          ⟨gitC p.repoPath ++ (" commit -m \"" ++ (escapeQuotes p.commitMessage ++ "\"")),
           none⟩)) ∧
    (escapeQuotes p.commitMessage).data =
      p.commitMessage.data.flatMap (fun c => if c = '"' then ['\\', '"'] else [c]) := by
  refine ⟨fun hs => ?_, fun hs => ?_, flatMapEsc_of_foldr p.commitMessage.data⟩
  · constructor
    · simp [buildCommit, hs]
    · simp [commitInternalCommands, hs]
  · refine ⟨?_, ?_, fun hd => ?_, fun hd => ?_⟩
    · simp [commitInternalCommands, hs]
    · simp [commitInternalCommands, hs]
    · simp [buildCommit, hs, hd]
    · simp [buildCommit, hs, hd]

/-- Witness for C4 at a concrete dirty repository and quoted message. -/
theorem c4_commit_algorithm_witness :
    buildCommit { repoPath := "/r", commitMessage := "say \"hi\"" }
        { statusOut := " M f\n", diffOut := "f\n" } =
      { command := "git -C \"/r\" commit -m \"say \\\"hi\\\"\"", tempFile := none } := by
  obtain ⟨-, h2, -⟩ := c4_commit_algorithm { repoPath := "/r", commitMessage := "say \"hi\"" }
    { statusOut := " M f\n", diffOut := "f\n" }
  obtain ⟨-, -, -, h4⟩ := h2 (by decide)
  rw [h4 (by decide)]
  decide

/-- Claim C9: authenticating a parseable URL that already carries user-info
with a new credential pair overwrites the user-info: the result re-parses
to the same URL with exactly the (percent-encoded) new pair and unchanged
scheme, host and rest; and re-authenticating with further credentials
overwrites again rather than accumulating. -/
theorem c9_auth_overwrites (s user pass : String) (u : Url)
    (h : parseUrlChars s.data = some u)
    (_hcreds : u.username ≠ [] ∨ u.password ≠ []) :
    parseUrlChars (authenticateUrl s user pass).data = some (setUserinfo u user pass) ∧
    (setUserinfo u user pass).username = encodeUserinfo user.data ∧
    (setUserinfo u user pass).password = encodeUserinfo pass.data ∧
    (setUserinfo u user pass).scheme = u.scheme ∧
    (setUserinfo u user pass).host = u.host ∧
    (setUserinfo u user pass).rest = u.rest ∧
    ∀ user₂ pass₂, authenticateUrl (authenticateUrl s user pass) user₂ pass₂ =
      authenticateUrl s user₂ pass₂ := by
  obtain ⟨hs, hh1, hh2, hr⟩ := parseUrlChars_inv h
  have hset : ∀ u₁ p₁ : String, parseUrlChars (serializeUrlChars (setUserinfo u u₁ p₁)) =
      some (setUserinfo u u₁ p₁) := by
    intro u₁ p₁
    exact parse_serializeUrl hs hh1 hh2 hr
      (fun c hc => mem_encodeUserinfo hc) (fun c hc => mem_encodeUserinfo hc)
  have hinner : authenticateUrl s user pass =
      String.mk (serializeUrlChars (setUserinfo u user pass)) := by
    unfold authenticateUrl
    rw [h]
  refine ⟨?_, rfl, rfl, rfl, rfl, rfl, ?_⟩
  · rw [hinner]
    exact hset user pass
  · intro user₂ pass₂
    rw [hinner]
    show authenticateUrl (String.mk (serializeUrlChars (setUserinfo u user pass))) user₂ pass₂ =
      authenticateUrl s user₂ pass₂
    unfold authenticateUrl
    rw [h]
    rw [show (String.mk (serializeUrlChars (setUserinfo u user pass))).data =
      serializeUrlChars (setUserinfo u user pass) from rfl]
    rw [hset user pass]
    rfl

/-- Witness for C9 at a concrete already-authenticated URL. -/
theorem c9_auth_overwrites_witness :
    parseUrlChars (authenticateUrl "https://old:pw@host/repo.git" "new" "secret").data =
      some (setUserinfo ⟨"https".data, "old".data, "pw".data, "host".data, "/repo.git".data⟩
        "new" "secret") := by
  have hparse : parseUrlChars ("https://old:pw@host/repo.git").data =
      some ⟨"https".data, "old".data, "pw".data, "host".data, "/repo.git".data⟩ := by decide
  exact (c9_auth_overwrites "https://old:pw@host/repo.git" "new" "secret" _ hparse
    (Or.inl (by decide))).1

/-- Claim C1 counterexample: the clone builder does not pass a malformed
URL through — with credentials selected it fails at build time with a parse
error instead of producing a clone command that uses the original
specifier. -/
theorem c1_clone_raises_counterexample :
    buildCommand .clone
        { repoUrl := "./local/repo", authentication := "custom",
          customUsername := "u", customPassword := "p" } {} =
      .error "Failed to parse the repository URL: ./local/repo. Error: Invalid URL" := by
  rfl

/-- Claim C1 (amended): a remote that fails to parse passes through the URL
Authenticator unchanged for the push and pull builders, whose commands still
use the original specifier; the clone builder instead raises a build-time
error naming the URL whenever an authenticating mode is selected, and only
keeps the original unparseable URL in its command when no credentials are in
play. -/
theorem c1_malformed_remote_passthrough (p : Params)
    (hrem : parseUrlChars p.remote.data = none)
    (hurl : parseUrlChars p.repoUrl.data = none) :
    authRemote p = p.remote ∧
    (p.remote ≠ "" →
      hasSubstr p.remote (buildPush p).command = true ∧
      hasSubstr p.remote (buildPull p).command = true) ∧
    ((p.authentication = "gitExtendedApi" ∨ p.authentication = "custom") →
      buildClone p = .error
        ("Failed to parse the repository URL: " ++ p.repoUrl ++ ". Error: Invalid URL")) ∧
    (p.authentication ≠ "gitExtendedApi" → p.authentication ≠ "custom" →
      ∃ r, buildClone p = .ok r ∧ hasSubstr p.repoUrl r.command = true) := by
  have hauth : ∀ u₁ p₁, authenticateUrl p.remote u₁ p₁ = p.remote := by
    intro u₁ p₁
    unfold authenticateUrl
    rw [hrem]
  have hra : authRemote p = p.remote := by
    unfold authRemote
    split
    · rfl
    · cases hres : resolveCreds p.authentication p.storedCreds
        ⟨p.customUsername, p.customPassword⟩ with
      | some creds => exact hauth creds.username creds.password
      | none => rfl
  refine ⟨hra, fun hne => ⟨?_, ?_⟩, fun hmode => ?_, fun hm1 hm2 => ?_⟩
  · simp only [buildPush]
    rw [hra]
    refine optPre_hasSubstr _ _ (optSuffix_hasSubstr _ _ (optSuffix_hasSubstr _ _ ?_))
    unfold optSuffix
    rw [if_pos hne]
    exact hasSubstr_append_left _ (hasSubstr_append_left " " (hasSubstr_refl _))
  · simp only [buildPull]
    rw [hra]
    refine optPre_hasSubstr _ _ (optSuffix_hasSubstr _ _ ?_)
    unfold optSuffix
    rw [if_pos hne]
    exact hasSubstr_append_left _ (hasSubstr_append_left " " (hasSubstr_refl _))
  · have hres : resolveCreds p.authentication p.storedCreds
        ⟨p.customUsername, p.customPassword⟩ =
        some (if p.authentication = "gitExtendedApi" then p.storedCreds
          else ⟨p.customUsername, p.customPassword⟩) := by
      rcases hmode with hm | hm
      · unfold resolveCreds
        rw [if_pos hm, if_pos hm]
      · unfold resolveCreds
        by_cases hg : p.authentication = "gitExtendedApi"
        · rw [if_pos hg, if_pos hg]
        · rw [if_neg hg, if_pos hm, if_neg hg]
    unfold buildClone
    rw [hres]
    dsimp only
    rw [hurl]
  · have hres : resolveCreds p.authentication p.storedCreds
        ⟨p.customUsername, p.customPassword⟩ = none := by
      unfold resolveCreds
      rw [if_neg hm1, if_neg hm2]
    unfold buildClone
    rw [hres]
    dsimp only
    refine ⟨_, rfl, ?_⟩
    refine optPre_hasSubstr _ _ ?_
    exact hasSubstr_append_left _ (hasSubstr_append_left " clone " (hasSubstr_self_append _ _))

/-- Concrete parameters with a local-path remote and URL, for the C1
witness. -/
def localRemoteParams : Params :=
  { remote := "./bare.git", authentication := "custom", customUsername := "u",
    customPassword := "p", repoUrl := "./src.git" }

/-- Witness for the amended C1 at a concrete local-path remote. -/
theorem c1_malformed_remote_passthrough_witness :
    authRemote localRemoteParams = "./bare.git" ∧
      hasSubstr "./bare.git" (buildPush localRemoteParams).command = true := by
  have h := c1_malformed_remote_passthrough localRemoteParams (by decide) (by decide)
  exact ⟨h.1, (h.2.1 (by decide)).1⟩

theorem optSuffix_pos {c : Prop} [Decidable c] (h : c) (s t : String) :
    optSuffix c s t = s ++ t := by
  unfold optSuffix
  rw [if_pos h]

theorem optPre_pos {c : Prop} [Decidable c] (h : c) (a s : String) :
    optPre c a s = a ++ s := by
  unfold optPre
  rw [if_pos h]

/-- Claim C7: the push builder sequences an LFS-push pre-step before the
main push with a logical AND when push-LFS-objects is set (so the main push
runs only if the pre-step succeeds), appends `--force` when the force flag
is set, and prefixes the invocation with the scoped `GIT_LFS_SKIP_PUSH=1`
assignment when skip-LFS-push is set. -/
theorem c7_push_flags (p : Params) :
    (p.pushLfsObjects = true →
      ∃ pre main, (buildPush p).command =
          (if p.skipLfsPush then "GIT_LFS_SKIP_PUSH=1 " else "") ++ ((pre ++ " && ") ++ main) ∧
        (∃ t, pre = (gitC p.repoPath ++ " lfs push --all") ++ t) ∧
        (∃ t, main = (gitC p.repoPath ++ " push") ++ t)) ∧
    (p.forcePush = true → ∃ pre, (buildPush p).command = pre ++ " --force") ∧
    (p.skipLfsPush = true →
      ∃ t, (buildPush p).command = "GIT_LFS_SKIP_PUSH=1 " ++ t) := by
  refine ⟨fun hlfs => ?_, fun hforce => ?_, fun hskip => ?_⟩
  · simp only [buildPush]
    rw [if_pos hlfs]
    generalize hl : optSuffix (p.branch ≠ "")
      (optSuffix (authRemote p ≠ "") (gitC p.repoPath ++ " lfs push --all")
        (" " ++ authRemote p)) (" " ++ p.branch) = lfs₂
    rw [optSuffix_append_left (authRemote p ≠ ""), optSuffix_append_left (p.branch ≠ ""),
      optSuffix_append_left (p.forcePush = true), optPre_eq]
    refine ⟨lfs₂, _, rfl, ?_, ?_⟩
    · obtain ⟨t₁, h₁⟩ := optSuffix_exists_append (authRemote p ≠ "")
        (gitC p.repoPath ++ " lfs push --all") (" " ++ authRemote p)
      obtain ⟨t₂, h₂⟩ := optSuffix_exists_append (p.branch ≠ "")
        (optSuffix (authRemote p ≠ "") (gitC p.repoPath ++ " lfs push --all")
          (" " ++ authRemote p)) (" " ++ p.branch)
      refine ⟨t₁ ++ t₂, ?_⟩
      rw [← hl, h₂, h₁, String.append_assoc]
    · obtain ⟨t₁, h₁⟩ := optSuffix_exists_append (authRemote p ≠ "")
        (gitC p.repoPath ++ " push") (" " ++ authRemote p)
      obtain ⟨t₂, h₂⟩ := optSuffix_exists_append (p.branch ≠ "")
        (optSuffix (authRemote p ≠ "") (gitC p.repoPath ++ " push") (" " ++ authRemote p))
        (" " ++ p.branch)
      obtain ⟨t₃, h₃⟩ := optSuffix_exists_append (p.forcePush = true)
        (optSuffix (p.branch ≠ "")
          (optSuffix (authRemote p ≠ "") (gitC p.repoPath ++ " push") (" " ++ authRemote p))
          (" " ++ p.branch)) " --force"
      refine ⟨t₁ ++ (t₂ ++ t₃), ?_⟩
      rw [h₃, h₂, h₁, String.append_assoc, String.append_assoc]
  · simp only [buildPush]
    rw [optSuffix_pos hforce, optPre_eq]
    exact ⟨_, (String.append_assoc _ _ _).symm⟩
  · simp only [buildPush]
    exact ⟨_, optPre_pos hskip _ _⟩

/-- Concrete push parameters with every flag set, for the C7 witness. -/
def pushAllFlags : Params :=
  { remote := "origin", branch := "main", forcePush := true, pushLfsObjects := true,
    skipLfsPush := true }

/-- Witness for C7 with every flag set. -/
theorem c7_push_flags_witness :
    (∃ pre main, (buildPush pushAllFlags).command =
        (if pushAllFlags.skipLfsPush then "GIT_LFS_SKIP_PUSH=1 " else "") ++
          ((pre ++ " && ") ++ main) ∧
      (∃ t, pre = (gitC pushAllFlags.repoPath ++ " lfs push --all") ++ t) ∧
      (∃ t, main = (gitC pushAllFlags.repoPath ++ " push") ++ t)) ∧
    (∃ pre, (buildPush pushAllFlags).command = pre ++ " --force") ∧
    (∃ t, (buildPush pushAllFlags).command = "GIT_LFS_SKIP_PUSH=1 " ++ t) :=
  ⟨(c7_push_flags pushAllFlags).1 rfl, (c7_push_flags pushAllFlags).2.1 rfl,
   (c7_push_flags pushAllFlags).2.2 rfl⟩

/-- Claim C8 counterexample: the commit builder's no-op informational
command (clean working tree) does not contain the quoted repository path as
a working-directory selector at all, so not every constructed command
passes the repository path to the underlying tool. -/
theorem c8_commit_noop_counterexample :
    buildCommand .commit { repoPath := "/repo" } {} =
      .ok { command := "echo \"No changes to commit\"", tempFile := none } ∧
    hasSubstr (gitC "/repo") "echo \"No changes to commit\"" = false := by
  exact ⟨rfl, by decide⟩

/-- Claim C8 (amended): every successfully built command either contains
the quoted repository path as the `git -C "<repoPath>"` working-directory
selector, or contains no `git` text at all (the commit builder's
informational no-op echoes and the empty configure-user command); no
builder selects the repository by changing the process working directory. -/
theorem c8_repo_path_selector (op : Operation) (p : Params) (w : World) (r : CommandResult)
    (h : buildCommand op p w = .ok r) :
    hasSubstr (gitC p.repoPath) r.command = true ∨ hasSubstr "git" r.command = false := by
  cases op with
  | clone =>
    unfold buildCommand buildClone at h
    cases hres : resolveCreds p.authentication p.storedCreds
        ⟨p.customUsername, p.customPassword⟩ with
    | some creds =>
      rw [hres] at h
      dsimp only at h
      cases hurl : parseUrlChars p.repoUrl.data with
      | some url =>
        rw [hurl] at h
        dsimp only at h
        cases h
        exact Or.inl (optPre_hasSubstr _ _ (hasSubstr_self_append _ _))
      | none =>
        rw [hurl] at h
        exact Except.noConfusion h
    | none =>
      rw [hres] at h
      dsimp only at h
      cases h
      exact Or.inl (optPre_hasSubstr _ _ (hasSubstr_self_append _ _))
  | init =>
    simp only [buildCommand] at h
    cases h
    exact Or.inl (hasSubstr_self_append _ _)
  | add =>
    simp only [buildCommand] at h
    cases h
    exact Or.inl (hasSubstr_self_append _ _)
  | commit =>
    simp only [buildCommand, buildCommit] at h
    by_cases hs : trimStr w.statusOut = ""
    · rw [if_pos hs] at h
      cases h
      exact Or.inr (by decide)
    · rw [if_neg hs] at h
      by_cases hd : trimStr w.diffOut = ""
      · rw [if_pos hd] at h
        cases h
        exact Or.inr (by decide)
      · rw [if_neg hd] at h
        cases h
        exact Or.inl (hasSubstr_self_append _ _)
  | push =>
    simp only [buildCommand] at h
    cases h
    simp only [buildPush]
    exact Or.inl (optPre_hasSubstr _ _ (optSuffix_hasSubstr _ _ (optSuffix_hasSubstr _ _
      (optSuffix_hasSubstr _ _ (hasSubstr_append_left _ (hasSubstr_self_append _ _))))))
  | lfsPush =>
    simp only [buildCommand] at h
    cases h
    simp only [buildLfsPushCmd]
    exact Or.inl (optSuffix_hasSubstr _ _ (optSuffix_hasSubstr _ _
      (hasSubstr_self_append _ _)))
  | pull =>
    simp only [buildCommand] at h
    cases h
    simp only [buildPull]
    exact Or.inl (optPre_hasSubstr _ _ (optSuffix_hasSubstr _ _ (optSuffix_hasSubstr _ _
      (hasSubstr_self_append _ _))))
  | branches =>
    simp only [buildCommand] at h
    cases h
    exact Or.inl (hasSubstr_self_append _ _)
  | createBranch =>
    simp only [buildCommand] at h
    cases h
    exact Or.inl (hasSubstr_self_append _ _)
  | deleteBranch =>
    simp only [buildCommand] at h
    cases h
    exact Or.inl (hasSubstr_self_append _ _)
  | renameBranch =>
    simp only [buildCommand] at h
    cases h
    exact Or.inl (hasSubstr_self_append _ _)
  | commits =>
    simp only [buildCommand] at h
    cases h
    exact Or.inl (hasSubstr_self_append _ _)
  | status =>
    simp only [buildCommand] at h
    cases h
    exact Or.inl (hasSubstr_self_append _ _)
  | log =>
    simp only [buildCommand] at h
    cases h
    exact Or.inl (hasSubstr_self_append _ _)
  | switch =>
    simp only [buildCommand] at h
    cases h
    exact Or.inl (hasSubstr_self_append _ _)
  | checkout =>
    simp only [buildCommand] at h
    cases h
    exact Or.inl (hasSubstr_self_append _ _)
  | merge =>
    simp only [buildCommand] at h
    cases h
    exact Or.inl (hasSubstr_self_append _ _)
  | fetch =>
    simp only [buildCommand] at h
    cases h
    simp only [buildFetch]
    exact Or.inl (optPre_hasSubstr _ _ (optSuffix_hasSubstr _ _ (optSuffix_hasSubstr _ _
      (hasSubstr_self_append _ _))))
  | rebase =>
    simp only [buildCommand] at h
    cases h
    exact Or.inl (hasSubstr_self_append _ _)
  | cherryPick =>
    simp only [buildCommand, buildCherryPick] at h
    by_cases hc : p.commit = ""
    · rw [if_pos hc] at h
      exact Except.noConfusion h
    · rw [if_neg hc] at h
      cases h
      exact Or.inl (hasSubstr_self_append _ _)
  | revert =>
    simp only [buildCommand, buildRevert] at h
    by_cases hc : p.commit = ""
    · rw [if_pos hc] at h
      exact Except.noConfusion h
    · rw [if_neg hc] at h
      cases h
      exact Or.inl (hasSubstr_self_append _ _)
  | reset =>
    simp only [buildCommand] at h
    cases h
    exact Or.inl (optSuffix_hasSubstr _ _ (hasSubstr_self_append _ _))
  | stash =>
    simp only [buildCommand] at h
    cases h
    exact Or.inl (hasSubstr_self_append _ _)
  | tag =>
    simp only [buildCommand, buildTag] at h
    cases h
    exact Or.inl (optSuffix_hasSubstr _ _ (hasSubstr_self_append _ _))
  | applyPatch =>
    simp only [buildCommand, buildApplyPatch] at h
    cases h
    exact Or.inl (hasSubstr_self_append _ _)
  | configUser =>
    simp only [buildCommand, buildConfigUser] at h
    by_cases hn : p.userName = ""
    · by_cases he : p.userEmail = ""
      · rw [if_neg (by simp [hn]), if_neg (by simp [he])] at h
        cases h
        exact Or.inr (by decide)
      · rw [if_neg (by simp [hn]), if_pos he] at h
        cases h
        simp only [List.nil_append, joinAnd]
        exact Or.inl (hasSubstr_self_append _ _)
    · by_cases he : p.userEmail = ""
      · rw [if_pos hn, if_neg (by simp [he])] at h
        cases h
        simp only [List.append_nil, joinAnd]
        exact Or.inl (hasSubstr_self_append _ _)
      · rw [if_pos hn, if_pos he] at h
        cases h
        simp only [List.cons_append, List.nil_append, joinAnd]
        exact Or.inl (hasSubstr_append_right _ (hasSubstr_append_right " && "
          (hasSubstr_self_append _ _)))

/-- Witness for the amended C8 at the init operation. -/
theorem c8_repo_path_selector_witness :
    hasSubstr (gitC "/r") (gitC "/r" ++ " init") = true ∨
      hasSubstr "git" (gitC "/r" ++ " init") = false :=
  c8_repo_path_selector .init { repoPath := "/r" } {} ⟨gitC "/r" ++ " init", none⟩ rfl

end GitExtended
